import Mathlib

/-
Verification of the CLI-Parser repository (src/cli_parser.py, src/main.py).

The Python source is shallowly embedded below.  Python dictionaries with
string keys become association lists (`Dict`), preserving insertion order
and the CPython rule that overwriting an existing key keeps its position.
The mutable `CLIArgument` objects (whose `current_args` field is updated in
place while both `self.arguments` and the `self._non_switches` snapshot
alias them) are modelled with an explicit object heap: a list of
`CLIArgument` records indexed by allocation order, so that aliasing between
the two dictionaries is exact.  `raise SystemExit(1)` becomes the `.error`
branch of `Except Fatal`, and `exitCode` records the numeric status the
process would exit with.  Non-fatal `logging.warning` calls become `Diag`
values accumulated in the parse state.
-/

/-- Association list standing for a CPython `dict` with string keys
(insertion ordered, unique keys). -/
abbrev Dict (α : Type) := List (String × α)

/-- `d[k] = v` on a CPython dict: overwrite in place if the key exists
(keeping its position), otherwise append the new binding. -/
def dictSet {α : Type} : Dict α → String → α → Dict α
  | [], k, v => [(k, v)]
  | (k', v') :: d, k, v =>
      if k' = k then (k, v) :: d else (k', v') :: dictSet d k v

/-- `d.get(k)` / `k in d` on a CPython dict. -/
def dictGet? {α : Type} : Dict α → String → Option α
  | [], _ => none
  | (k', v') :: d, k => if k' = k then some v' else dictGet? d k

/-- `list(d.keys())`. -/
def dictKeys {α : Type} (d : Dict α) : List String :=
  d.map (fun pr => pr.1)

/-- `d1 | d2` on CPython dicts: start from `d1` and write every binding of
`d2` into it (collisions keep the position of `d1`, the value of `d2`). -/
def dictUnion {α : Type} (d1 d2 : Dict α) : Dict α :=
  d2.foldl (fun acc pr => dictSet acc pr.1 pr.2) d1

/-- CPython `s.startswith(pre)` for string prefixes: `pre`'s characters
are a prefix of `s`'s characters. -/
def pyStartsWith (s pre : String) : Bool :=
  pre.data.isPrefixOf s.data

/-- CPython slicing `s[n:]` (by code points). -/
def pyDrop (s : String) (n : Nat) : String :=
  String.mk (s.data.drop n)

/-- CPython `s.strip()`: remove leading and trailing whitespace. -/
def pyStrip (cs : List Char) : List Char :=
  ((cs.dropWhile Char.isWhitespace).reverse.dropWhile Char.isWhitespace).reverse

/-- A parsed result value.  Mirrors the Python values that can appear in
`self._results`: `None`, booleans (flags), raw strings, integers, and
lists built up for arguments with `nargs > 1`. -/
inductive Value : Type
  | none : Value
  | bool : Bool → Value
  | str : String → Value
  | int : Int → Value
  | list : List Value → Value

/-- CPython truthiness of the `Value`s above, as used by
`elif results_dict.get(arg.name):` in `_set_argument_value`. -/
def truthy : Value → Bool
  | .none => false
  | .bool b => b
  | .str s => !s.isEmpty
  | .int n => n != 0
  | .list vs => !vs.isEmpty

/-- Python digits with single underscores permitted between them, as in
`int("1_0")`: the tail of a digit group after its first character. -/
def pyDigitsRest : List Char → Bool
  | [] => true
  | c :: cs =>
      if c = '_' then
        match cs with
        | [] => false
        | c2 :: cs2 => c2.isDigit && pyDigitsRest cs2
      else c.isDigit && pyDigitsRest cs

/-- A nonempty Python digit group (digits, single interior underscores). -/
def pyDigitsStart : List Char → Bool
  | [] => false
  | c :: cs => c.isDigit && pyDigitsRest cs

/-- Numeric value of a digit group, skipping underscores. -/
def digitsToNat (cs : List Char) : Nat :=
  cs.foldl (fun n c => if c = '_' then n else n * 10 + (c.toNat - '0'.toNat)) 0

/-- CPython `int(s)` on a whitespace-stripped character list: an optional
sign followed by a digit group. -/
def pyIntCore (cs : List Char) : Option Int :=
  match cs with
  | '+' :: rest => if pyDigitsStart rest then some (Int.ofNat (digitsToNat rest)) else none
  | '-' :: rest => if pyDigitsStart rest then some (-(Int.ofNat (digitsToNat rest))) else none
  | _ => if pyDigitsStart cs then some (Int.ofNat (digitsToNat cs)) else none

/-- CPython `int(s)`: strip surrounding whitespace, then sign and digits;
`none` models the `ValueError` raised on any other input. -/
def pyIntOfString (s : String) : Option Int :=
  pyIntCore (pyStrip s.data)

/-- The conversion performed by `arg_type(token)` when `arg_type` is the
builtin type `int` (the case exercised by src/main.py). -/
def pyIntValue (s : String) : Option Value :=
  (pyIntOfString s).map Value.int

/-- The runtime shape of `CLIArgument.arg_type` as dispatched on by
`_cast_to_desired_type` (src/cli_parser.py lines 88-111):
* `strInstance` — `isinstance(arg_type, str)` holds, i.e. `arg_type` is a
  string value; the token is returned unchanged;
* `intInstance` — `isinstance(arg_type, int)` holds, i.e. `arg_type` is an
  integer value; this selects the digit-validation branch;
* `custom f` — anything else: `arg_type(token)` is invoked and a
  `ValueError` (modelled by `f` returning `none`) is reported as a
  type-cast failure.  The builtin type `int`, used by src/main.py, is an
  instance of neither `str` nor `int`, so it takes this branch with
  `f = pyIntValue`. -/
inductive ArgType : Type
  | strInstance : ArgType
  | intInstance : ArgType
  | custom : (String → Option Value) → ArgType

/-- The `CLIArgument` dataclass (src/cli_parser.py lines 186-196).
`name` is set externally (the `parser` decorator does `value.name = key`),
`nargs` defaults to 1, `switch` to False, `current_args` to 0.  The class
has no optionality field. -/
structure CLIArgument : Type where
  name : String
  argType : ArgType
  nargs : Nat
  switch : Bool
  currentArgs : Nat

/-- Placeholder object returned when an object-heap index is out of range;
never reached from states built by the public operations. -/
def defaultCLIArgument : CLIArgument :=
  { name := "", argType := .strInstance, nargs := 1, switch := false, currentArgs := 0 }

/-- The derived property `satisfied`: `current_args >= nargs`. -/
def CLIArgument.satisfied (a : CLIArgument) : Bool :=
  a.nargs ≤ a.currentArgs

/-- The fatal conditions, every one raised as `SystemExit(1)` in the
source (for `pyAttributeError`, the uncaught exception CPython would raise
in `_set_argument_value` when `.append` is called on a truthy non-list;
an uncaught exception also ends the process with status 1). -/
inductive Fatal : Type
  | unrecognizedArgument : String → Fatal
  | argumentStreamExhausted : String → Fatal
  | typeCastFailure : String → Fatal
  | noSlotForPositional : String → Fatal
  | unknownResultKey : String → Fatal
  | pyAttributeError : String → Fatal
deriving DecidableEq

/-- The process exit status produced by each fatal condition: every
`raise SystemExit(1)` (and the uncaught `AttributeError`) exits with 1. -/
def exitCode : Fatal → Nat
  | _ => 1

/-- Non-fatal diagnostics (`logging.warning` calls). -/
inductive Diag : Type
  | unrecognizedFlag : Char → Diag
  | underSatisfiedArgument : String → Diag
deriving DecidableEq

/-- The mutable state threaded through `_parse`: the `results` dict being
built, the heap of `CLIArgument` objects (whose `current_args` fields are
mutated in place), and the warnings logged so far. -/
structure ParseState : Type where
  results : Dict Value
  heap : List CLIArgument
  diags : List Diag

/-- `_cast_to_desired_type` (src/cli_parser.py lines 85-111).
For `intInstance` the source runs
`if token.startswith(DIGITS)` with `DIGITS = (1,2,3,4,5,6,7,8,9)` — a
tuple of ints, which makes CPython `str.startswith` raise `TypeError`
for every token; the `except TypeError` handler then logs and raises
`SystemExit(1)`.  (Even if it did not, the inner check
`char not in (0, *DIGITS)` compares characters against ints and so holds
for every character.)  Hence that branch rejects every token. -/
def castToDesiredType (token : String) (argType : ArgType) : Except Fatal Value :=
  match argType with
  | .strInstance => .ok (.str token)
  | .intInstance => .error (.typeCastFailure token)
  | .custom f =>
      match f token with
      | some v => .ok v
      | none => .error (.typeCastFailure token)

/-- `_set_argument_value` (src/cli_parser.py lines 113-120): store under
`arg.name`; for `nargs == 1` overwrite, otherwise append to the list if
`results_dict.get(arg.name)` is truthy (a truthy non-list would make
`.append` raise `AttributeError`), else start a fresh one-element list;
finally `arg.current_args += 1` on the shared object. -/
def setArgumentValue (st : ParseState) (value : Value) (id : Nat) : Except Fatal ParseState :=
  let a := st.heap.getD id defaultCLIArgument
  let bumped := st.heap.set id { a with currentArgs := a.currentArgs + 1 }
  if a.nargs = 1 then
    .ok { st with results := dictSet st.results a.name value, heap := bumped }
  else
    match dictGet? st.results a.name with
    | some old =>
        if truthy old then
          match old with
          | .list vs =>
              .ok { st with results := dictSet st.results a.name (.list (vs ++ [value])),
                            heap := bumped }
          | _ => .error (.pyAttributeError a.name)
        else
          .ok { st with results := dictSet st.results a.name (.list [value]), heap := bumped }
    | none =>
        .ok { st with results := dictSet st.results a.name (.list [value]), heap := bumped }

/-- `_cast_argument_and_set` (src/cli_parser.py lines 122-124). -/
def castArgumentAndSet (token : String) (id : Nat) (st : ParseState) : Except Fatal ParseState :=
  match castToDesiredType token ((st.heap.getD id defaultCLIArgument).argType) with
  | .error e => .error e
  | .ok v => setArgumentValue st v id

/-- The short-form branch (src/cli_parser.py lines 66-71): for every
character after the hyphen, warn if it is not a registered flag, and in
either case set `results[character] = True`. -/
def shortFormStep (flags : List String) : ParseState → List Char → ParseState
  | st, [] => st
  | st, c :: cs =>
      let s1 :=
        if flags.contains (String.singleton c) then st
        else { st with diags := st.diags ++ [Diag.unrecognizedFlag c] }
      shortFormStep flags { s1 with results := dictSet s1.results (String.singleton c) (.bool true) } cs

/-- The bare-token dispatch (src/cli_parser.py lines 72-76): the first
object in the `_non_switches` snapshot whose `satisfied` is false. -/
def firstUnsatisfied (heap : List CLIArgument) : List Nat → Option Nat
  | [] => none
  | id :: ids =>
      if (heap.getD id defaultCLIArgument).satisfied then firstUnsatisfied heap ids
      else some id

/-- In-flight consumption of a long-form argument's values: the inner
`for i in range(argument.nargs): subsequent = next(token_stream)` loop of
`_parse` (src/cli_parser.py lines 58-64), represented as a pending record
on the token-by-token scan.  `more` counts the pulls that remain after the
next one, so `some pd` always owes `pd.more + 1` further tokens. -/
structure Pending : Type where
  argName : String
  argId : Nat
  more : Nat

/-- The token scan of `_parse` (src/cli_parser.py lines 42-81).  Tokens
are consumed left to right; a long-form argument name switches the scan
into pending-consumption mode for exactly `nargs` following tokens, which
reproduces the nested `next(token_stream)` pulls of the source (those
pulls never re-classify the pulled token).  Running out of tokens while
values are still owed is the `argument ended abruptly` error. -/
def parseLoop (flags : List String) (args : Dict Nat) (nonSw : List Nat) :
    ParseState → Option Pending → List String → Except Fatal ParseState
  | st, none, [] => .ok st
  | _, some pd, [] => .error (.argumentStreamExhausted pd.argName)
  | st, some pd, v :: rest =>
      match castArgumentAndSet v pd.argId st with
      | .error e => .error e
      | .ok st' =>
          if pd.more = 0 then parseLoop flags args nonSw st' none rest
          else parseLoop flags args nonSw st' (some ⟨pd.argName, pd.argId, pd.more - 1⟩) rest
  | st, none, token :: rest =>
      if pyStartsWith token "--" then
        let remainder := pyDrop token 2
        if flags.contains remainder then
          parseLoop flags args nonSw
            { st with results := dictSet st.results remainder (.bool true) } none rest
        else
          match dictGet? args remainder with
          | none => .error (.unrecognizedArgument remainder)
          | some id =>
              let a := st.heap.getD id defaultCLIArgument
              if a.nargs = 0 then parseLoop flags args nonSw st none rest
              else parseLoop flags args nonSw st (some ⟨remainder, id, a.nargs - 1⟩) rest
      else if pyStartsWith token "-" then
        parseLoop flags args nonSw (shortFormStep flags st (pyDrop token 1).data) none rest
      else
        match firstUnsatisfied st.heap nonSw with
        | none => .error (.noSlotForPositional token)
        | some id =>
            match castArgumentAndSet token id st with
            | .error e => .error e
            | .ok st' => parseLoop flags args nonSw st' none rest

/-- The `CLIParser` instance state: the two registration dicts (argument
names resolve to heap indices), the `_non_switches` snapshot taken by
`__init__`, the object heap, and `self._results` (empty before the first
`parse` call). -/
structure CLIParser : Type where
  flags : List String
  arguments : Dict Nat
  nonSwitches : List Nat
  heap : List CLIArgument
  results : Dict Value

/-- Registration followed by `__init__` (src/cli_parser.py lines 28-31):
the arguments registered so far are laid out on the heap in insertion
order and `_non_switches` records those whose `switch` is false, in the
same order.  `_results` starts empty. -/
def CLIParser.init (flags : List String) (args : List (String × CLIArgument)) : CLIParser :=
  { flags := flags
    arguments := args.enum.map (fun pr => (pr.2.1, pr.1))
    nonSwitches := (args.enum.filter (fun pr => !pr.2.2.switch)).map (fun pr => pr.1)
    heap := args.map (fun pr => pr.2)
    results := [] }

/-- `add_argument` called after the instance was constructed
(src/cli_parser.py lines 131-135): the class-level `arguments` dict gains
the binding, but the instance's `_non_switches` snapshot is not
recomputed. -/
def CLIParser.addArgument (p : CLIParser) (name : String) (arg : CLIArgument) : CLIParser :=
  { p with arguments := dictSet p.arguments name p.heap.length
           heap := p.heap ++ [arg] }

/-- The `results` initialisation of `_parse` (src/cli_parser.py line 40):
every flag name maps to `False`, every argument name to `None`, merged
with `|`. -/
def initResults (p : CLIParser) : Dict Value :=
  dictUnion (p.flags.map (fun n => (n, Value.bool false)))
    (p.arguments.map (fun pr => (pr.1, Value.none)))

/-- `_post_parsing_check` (src/cli_parser.py lines 126-129): a warning for
every registered argument whose `satisfied` is false.  The check only
logs; it can neither raise nor exit. -/
def postParsingCheck (args : Dict Nat) (st : ParseState) : ParseState :=
  let warns := args.foldl
    (fun acc pr =>
      let a := st.heap.getD pr.2 defaultCLIArgument
      if a.satisfied then acc else acc ++ [Diag.underSatisfiedArgument a.name]) []
  { st with diags := st.diags ++ warns }

/-- `parse` (src/cli_parser.py lines 33-36): run `_parse`, store its dict
in `self._results`, then run the post-parse check.  A fatal condition
inside `_parse` propagates as `SystemExit(1)` and nothing is stored. -/
def CLIParser.parse (p : CLIParser) (tokens : List String) :
    Except Fatal (CLIParser × List Diag) :=
  match parseLoop p.flags p.arguments p.nonSwitches
      ⟨initResults p, p.heap, []⟩ none tokens with
  | .error e => .error e
  | .ok st =>
      let st' := postParsingCheck p.arguments st
      .ok ({ p with results := st'.results, heap := st'.heap }, st'.diags)

/-- `__getitem__` (src/cli_parser.py lines 144-150): return
`self._results[key]` when present, otherwise log and `SystemExit(1)`. -/
def CLIParser.getitem (p : CLIParser) (key : String) : Except Fatal Value :=
  match dictGet? p.results key with
  | some v => .ok v
  | none => .error (.unknownResultKey key)

/-- `k` is a single character occurring after the hyphen of some
short-form token in `tokens`: exactly the keys that the short-form branch
writes into `results`. -/
def shortChar (tokens : List String) (k : String) : Prop :=
  ∃ t ∈ tokens, pyStartsWith t "--" = false ∧ pyStartsWith t "-" = true ∧
    ∃ c ∈ (pyDrop t 1).data, String.singleton c = k

/-- A positional string argument of arity 1 (declaration-shaped like
`CLIArgument(arg_type="", nargs=1)` with `name` set to `"x"`). -/
def argX : CLIArgument :=
  { name := "x", argType := .strInstance, nargs := 1, switch := false, currentArgs := 0 }

/-- An argument whose `arg_type` is an `int` instance, i.e. the
integer-tag branch of `_cast_to_desired_type`. -/
def argI : CLIArgument :=
  { name := "i", argType := .intInstance, nargs := 1, switch := false, currentArgs := 0 }

/-- A parser with the single positional argument `x` and no flags. -/
def exQ : CLIParser := CLIParser.init [] [("x", argX)]

/-- The instance state of `exQ` after `parse(["v"])`: `x` holds `"v"` and
its `current_args` has been advanced to 1 on the shared object. -/
def exQ1 : CLIParser :=
  { flags := []
    arguments := [("x", 0)]
    nonSwitches := [0]
    heap := [{ argX with currentArgs := 1 }]
    results := [("x", Value.str "v")] }

/-- A parser with the single flag `a` and no arguments. -/
def exF : CLIParser := CLIParser.init ["a"] []

/-- A parser with flag `a` and positional argument `x`. -/
def exF2 : CLIParser := CLIParser.init ["a"] [("x", argX)]

/-- The `n` argument declared in src/main.py:
`CLIArgument(arg_type=int, nargs=1, switch=True, optional=True)` — the
`optional=True` keyword has no corresponding field on the `CLIArgument`
dataclass of src/cli_parser.py, so it cannot be represented (passing it
would raise `TypeError` at construction). -/
def exMainN : CLIArgument :=
  { name := "n", argType := .custom pyIntValue, nargs := 1, switch := true, currentArgs := 0 }

/-- The `data` argument declared in src/main.py:
`CLIArgument(arg_type=int, nargs=4, optional=True)` — again without the
unrepresentable `optional` keyword. -/
def exMainData : CLIArgument :=
  { name := "data", argType := .custom pyIntValue, nargs := 4, switch := false, currentArgs := 0 }

/-- The parser declared in src/main.py: flags `help`, `l`, `i`, `s`, `a`
and arguments `n` and `data`. -/
def exMain : CLIParser :=
  CLIParser.init ["help", "l", "i", "s", "a"] [("n", exMainN), ("data", exMainData)]

/-- A fresh positional argument registered after construction in the C9
scenario. -/
def argY : CLIArgument :=
  { name := "y", argType := .strInstance, nargs := 1, switch := false, currentArgs := 0 }

theorem dictGet?_dictSet_self {α : Type} (d : Dict α) (k : String) (v : α) :
    dictGet? (dictSet d k v) k = some v := by
  induction d with
  | nil => simp [dictSet, dictGet?]
  | cons pr d ih =>
      by_cases h : pr.1 = k
      · simp [dictSet, h, dictGet?]
      · simp [dictSet, h, dictGet?, ih]

theorem dictGet?_dictSet_ne {α : Type} (d : Dict α) (k k' : String) (v : α) (h : k ≠ k') :
    dictGet? (dictSet d k v) k' = dictGet? d k' := by
  induction d with
  | nil => simp [dictSet, dictGet?, h]
  | cons pr d ih =>
      by_cases h1 : pr.1 = k
      · simp [dictSet, h1, dictGet?, h]
      · simp [dictSet, h1, dictGet?, ih]

theorem dictKeys_dictSet {α : Type} (d : Dict α) (k k' : String) (v : α)
    (h : k' ∈ dictKeys (dictSet d k v)) : k' = k ∨ k' ∈ dictKeys d := by
  induction d with
  | nil =>
      simp only [dictSet, dictKeys, List.map_cons, List.map_nil, List.mem_cons,
        List.not_mem_nil, or_false] at h
      exact Or.inl h
  | cons pr d ih =>
      rcases pr with ⟨k0, v0⟩
      by_cases h1 : k0 = k
      · subst h1
        simp only [dictSet, if_true] at h
        simp only [dictKeys, List.map_cons, List.mem_cons] at h ⊢
        exact h.imp id Or.inr
      · simp only [dictSet, if_neg h1, dictKeys, List.map_cons, List.mem_cons] at h ⊢
        rcases h with h2 | h2
        · exact Or.inr (Or.inl h2)
        · rcases ih h2 with h3 | h3
          · exact Or.inl h3
          · exact Or.inr (Or.inr h3)

theorem dictGet?_mem {α : Type} {d : Dict α} {k : String} {v : α}
    (h : dictGet? d k = some v) : (k, v) ∈ d := by
  induction d with
  | nil => simp [dictGet?] at h
  | cons pr d ih =>
      rcases pr with ⟨k0, v0⟩
      by_cases h1 : k0 = k
      · simp only [dictGet?, if_pos h1] at h
        injection h with h2
        subst h1
        subst h2
        exact List.mem_cons_self _ _
      · simp only [dictGet?, if_neg h1] at h
        exact List.mem_cons_of_mem _ (ih h)

theorem contains_true_iff_mem {l : List String} {s : String} :
    l.contains s = true ↔ s ∈ l := by
  induction l with
  | nil => simp
  | cons t l ih => simp [List.contains, List.elem_cons, beq_iff_eq, or_comm, ih]

theorem getD_set_self {α : Type} {l : List α} {i : Nat} (a d : α) (h : i < l.length) :
    (l.set i a).getD i d = a := by
  rw [List.getD_eq_getElem?_getD, List.getElem?_set_self h]
  rfl

theorem getD_set_ne {α : Type} {l : List α} {i j : Nat} (a d : α) (h : i ≠ j) :
    (l.set i a).getD j d = l.getD j d := by
  rw [List.getD_eq_getElem?_getD, List.getElem?_set_ne h, ← List.getD_eq_getElem?_getD]

theorem firstUnsatisfied_mem {heap : List CLIArgument} {ns : List Nat} {id : Nat}
    (h : firstUnsatisfied heap ns = some id) : id ∈ ns := by
  induction ns with
  | nil => simp [firstUnsatisfied] at h
  | cons j ns ih =>
      by_cases hs : (heap.getD j defaultCLIArgument).satisfied = true
      · simp only [firstUnsatisfied, hs, if_true] at h
        exact List.mem_cons_of_mem _ (ih h)
      · simp only [firstUnsatisfied, hs, if_false, Bool.false_eq_true] at h
        injection h with h2
        subst h2
        exact List.mem_cons_self _ _

theorem firstUnsatisfied_unsat {heap : List CLIArgument} {ns : List Nat} {id : Nat}
    (h : firstUnsatisfied heap ns = some id) :
    (heap.getD id defaultCLIArgument).satisfied = false := by
  induction ns with
  | nil => simp [firstUnsatisfied] at h
  | cons j ns ih =>
      by_cases hs : (heap.getD j defaultCLIArgument).satisfied = true
      · simp only [firstUnsatisfied, hs, if_true] at h
        exact ih h
      · simp only [firstUnsatisfied, hs, if_false, Bool.false_eq_true] at h
        injection h with h2
        subst h2
        simpa using hs

theorem firstUnsatisfied_set {heap : List CLIArgument} {ns : List Nat} {id : Nat}
    {a1 : CLIArgument} (hfu : firstUnsatisfied heap ns = some id)
    (ha : a1.satisfied = false) :
    firstUnsatisfied (heap.set id a1) ns = some id := by
  by_cases hlen : heap.length ≤ id
  · rw [List.set_eq_of_length_le hlen]
    exact hfu
  · push_neg at hlen
    induction ns with
    | nil => simp [firstUnsatisfied] at hfu
    | cons j ns ih =>
        by_cases hs : (heap.getD j defaultCLIArgument).satisfied = true
        · have hne : id ≠ j := by
            intro hh
            rw [← hh] at hs
            rw [firstUnsatisfied_unsat hfu] at hs
            exact absurd hs (by simp)
          simp only [firstUnsatisfied, hs, if_true] at hfu
          have hs' : ((heap.set id a1).getD j defaultCLIArgument).satisfied = true := by
            rw [getD_set_ne _ _ hne]
            exact hs
          simp only [firstUnsatisfied, hs', if_true]
          exact ih hfu
        · simp only [firstUnsatisfied, hs, if_false, Bool.false_eq_true] at hfu
          injection hfu with h2
          subst h2
          have hs' : ((heap.set j a1).getD j defaultCLIArgument).satisfied = false := by
            rw [getD_set_self _ _ hlen]
            exact ha
          simp only [firstUnsatisfied, hs', Bool.false_eq_true, if_false]

theorem setArgumentValue_ok {st : ParseState} {v : Value} {id : Nat} {st' : ParseState}
    (h : setArgumentValue st v id = .ok st') :
    st'.heap = st.heap.set id
      { st.heap.getD id defaultCLIArgument with
        currentArgs := (st.heap.getD id defaultCLIArgument).currentArgs + 1 } ∧
    st'.diags = st.diags ∧
    ∃ w, st'.results = dictSet st.results (st.heap.getD id defaultCLIArgument).name w := by
  simp only [setArgumentValue] at h
  repeat' split at h
  all_goals first
    | (injection h with h1; subst h1; exact ⟨rfl, rfl, ⟨_, rfl⟩⟩)
    | cases h

theorem castArgumentAndSet_ok {token : String} {id : Nat} {st st' : ParseState}
    (h : castArgumentAndSet token id st = .ok st') :
    st'.heap = st.heap.set id
      { st.heap.getD id defaultCLIArgument with
        currentArgs := (st.heap.getD id defaultCLIArgument).currentArgs + 1 } ∧
    st'.diags = st.diags ∧
    ∃ w, st'.results = dictSet st.results (st.heap.getD id defaultCLIArgument).name w := by
  unfold castArgumentAndSet at h
  split at h
  · cases h
  · exact setArgumentValue_ok h

theorem castArgumentAndSet_ok_length {token : String} {id : Nat} {st st' : ParseState}
    (h : castArgumentAndSet token id st = .ok st') :
    st'.heap.length = st.heap.length := by
  rw [(castArgumentAndSet_ok h).1, List.length_set]

theorem castArgumentAndSet_ok_name {token : String} {id : Nat} {st st' : ParseState}
    (h : castArgumentAndSet token id st = .ok st') (i : Nat) :
    (st'.heap.getD i defaultCLIArgument).name
      = (st.heap.getD i defaultCLIArgument).name := by
  rw [(castArgumentAndSet_ok h).1]
  by_cases hi : id = i
  · subst hi
    by_cases hlen : st.heap.length ≤ id
    · rw [List.set_eq_of_length_le hlen]
    · push_neg at hlen
      rw [getD_set_self _ _ hlen]
  · rw [getD_set_ne _ _ hi]

theorem castArgumentAndSet_ok_currentArgs {token : String} {id : Nat} {st st' : ParseState}
    (h : castArgumentAndSet token id st = .ok st') (i : Nat) :
    (st.heap.getD i defaultCLIArgument).currentArgs
      ≤ (st'.heap.getD i defaultCLIArgument).currentArgs := by
  rw [(castArgumentAndSet_ok h).1]
  by_cases hi : id = i
  · subst hi
    by_cases hlen : st.heap.length ≤ id
    · rw [List.set_eq_of_length_le hlen]
    · push_neg at hlen
      rw [getD_set_self _ _ hlen]
      exact Nat.le_succ _
  · rw [getD_set_ne _ _ hi]

theorem castArgumentAndSet_ok_other {token : String} {id : Nat} {st st' : ParseState}
    (h : castArgumentAndSet token id st = .ok st') (i : Nat) (hi : id ≠ i) :
    st'.heap.getD i defaultCLIArgument = st.heap.getD i defaultCLIArgument := by
  rw [(castArgumentAndSet_ok h).1, getD_set_ne _ _ hi]

theorem shortFormStep_heap (flags : List String) (cs : List Char) :
    ∀ st : ParseState, (shortFormStep flags st cs).heap = st.heap := by
  induction cs with
  | nil => intro st; rfl
  | cons c cs ih =>
      intro st
      by_cases hc : flags.contains (String.singleton c) = true
      · simp only [shortFormStep, hc, if_true]
        rw [ih]
      · simp only [shortFormStep, hc, if_false, Bool.false_eq_true]
        rw [ih]

theorem shortFormStep_diags_mono (flags : List String) (cs : List Char) :
    ∀ st : ParseState, ∀ d ∈ st.diags, d ∈ (shortFormStep flags st cs).diags := by
  induction cs with
  | nil => intro st d hd; exact hd
  | cons c cs ih =>
      intro st d hd
      by_cases hc : flags.contains (String.singleton c) = true
      · simp only [shortFormStep, hc, if_true]
        exact ih _ d hd
      · simp only [shortFormStep, hc, if_false, Bool.false_eq_true]
        exact ih _ d (by simp only [List.mem_append]; exact Or.inl hd)

theorem shortFormStep_results_stable (flags : List String) (cs : List Char) :
    ∀ st : ParseState, ∀ k : String,
      dictGet? st.results k = some (Value.bool true) →
      dictGet? (shortFormStep flags st cs).results k = some (Value.bool true) := by
  induction cs with
  | nil => intro st k hk; exact hk
  | cons c cs ih =>
      intro st k hk
      by_cases hc : flags.contains (String.singleton c) = true
      · simp only [shortFormStep, hc, if_true]
        apply ih
        by_cases hck : String.singleton c = k
        · subst hck; simp [dictGet?_dictSet_self]
        · simp only [dictGet?_dictSet_ne _ _ _ _ hck]
          exact hk
      · simp only [shortFormStep, hc, if_false, Bool.false_eq_true]
        apply ih
        by_cases hck : String.singleton c = k
        · subst hck; simp [dictGet?_dictSet_self]
        · simp only [dictGet?_dictSet_ne _ _ _ _ hck]
          exact hk

theorem shortFormStep_sets_true (flags : List String) (cs : List Char) :
    ∀ st : ParseState, ∀ c ∈ cs,
      dictGet? (shortFormStep flags st cs).results (String.singleton c)
        = some (Value.bool true) := by
  induction cs with
  | nil => intro st c hc; simp at hc
  | cons c0 cs ih =>
      intro st c hc
      rcases List.mem_cons.mp hc with h1 | h1
      · subst h1
        by_cases hc0 : flags.contains (String.singleton c) = true
        · simp only [shortFormStep, hc0, if_true]
          exact shortFormStep_results_stable flags cs _ _ (dictGet?_dictSet_self _ _ _)
        · simp only [shortFormStep, hc0, if_false, Bool.false_eq_true]
          exact shortFormStep_results_stable flags cs _ _ (dictGet?_dictSet_self _ _ _)
      · by_cases hc0 : flags.contains (String.singleton c0) = true
        · simp only [shortFormStep, hc0, if_true]
          exact ih _ c h1
        · simp only [shortFormStep, hc0, if_false, Bool.false_eq_true]
          exact ih _ c h1

theorem shortFormStep_warns (flags : List String) (cs : List Char) :
    ∀ st : ParseState, ∀ c ∈ cs, flags.contains (String.singleton c) = false →
      Diag.unrecognizedFlag c ∈ (shortFormStep flags st cs).diags := by
  induction cs with
  | nil => intro st c hc; simp at hc
  | cons c0 cs ih =>
      intro st c hc hflag
      rcases List.mem_cons.mp hc with h1 | h1
      · subst h1
        simp only [shortFormStep, hflag, if_false, Bool.false_eq_true]
        apply shortFormStep_diags_mono
        simp
      · by_cases hc0 : flags.contains (String.singleton c0) = true
        · simp only [shortFormStep, hc0, if_true]
          exact ih _ c h1 hflag
        · simp only [shortFormStep, hc0, if_false, Bool.false_eq_true]
          exact ih _ c h1 hflag

theorem shortFormStep_keys (flags : List String) (cs : List Char) :
    ∀ st : ParseState, ∀ k ∈ dictKeys (shortFormStep flags st cs).results,
      k ∈ dictKeys st.results ∨ ∃ c ∈ cs, String.singleton c = k := by
  induction cs with
  | nil => intro st k hk; exact Or.inl hk
  | cons c0 cs ih =>
      intro st k hk
      by_cases hc0 : flags.contains (String.singleton c0) = true
      · simp only [shortFormStep, hc0, if_true] at hk
        rcases ih _ k hk with h1 | h1
        · rcases dictKeys_dictSet _ _ _ _ h1 with h2 | h2
          · exact Or.inr ⟨c0, List.mem_cons_self _ _, h2.symm⟩
          · exact Or.inl h2
        · rcases h1 with ⟨c, hcmem, hck⟩
          exact Or.inr ⟨c, List.mem_cons_of_mem _ hcmem, hck⟩
      · simp only [shortFormStep, hc0, if_false, Bool.false_eq_true] at hk
        rcases ih _ k hk with h1 | h1
        · rcases dictKeys_dictSet _ _ _ _ h1 with h2 | h2
          · exact Or.inr ⟨c0, List.mem_cons_self _ _, h2.symm⟩
          · exact Or.inl h2
        · rcases h1 with ⟨c, hcmem, hck⟩
          exact Or.inr ⟨c, List.mem_cons_of_mem _ hcmem, hck⟩

theorem parseLoop_nil (fl : List String) (ar : Dict Nat) (ns : List Nat) (st : ParseState) :
    parseLoop fl ar ns st none [] = .ok st := rfl

theorem parseLoop_pending_nil (fl : List String) (ar : Dict Nat) (ns : List Nat)
    (st : ParseState) (pd : Pending) :
    parseLoop fl ar ns st (some pd) [] = .error (.argumentStreamExhausted pd.argName) := rfl

theorem parseLoop_pending_cons (fl : List String) (ar : Dict Nat) (ns : List Nat)
    (st : ParseState) (pd : Pending) (v : String) (rest : List String) :
    parseLoop fl ar ns st (some pd) (v :: rest) =
      match castArgumentAndSet v pd.argId st with
      | .error e => .error e
      | .ok st' =>
          if pd.more = 0 then parseLoop fl ar ns st' none rest
          else parseLoop fl ar ns st' (some ⟨pd.argName, pd.argId, pd.more - 1⟩) rest := by
  rw [parseLoop]

theorem parseLoop_long_flag (fl : List String) (ar : Dict Nat) (ns : List Nat)
    (st : ParseState) (t : String) (rest : List String)
    (h1 : pyStartsWith t "--" = true) (h2 : fl.contains (pyDrop t 2) = true) :
    parseLoop fl ar ns st none (t :: rest) =
      parseLoop fl ar ns
        { st with results := dictSet st.results (pyDrop t 2) (.bool true) } none rest := by
  rw [parseLoop]
  simp only [h1, h2, if_true]

theorem parseLoop_long_unrecognized (fl : List String) (ar : Dict Nat) (ns : List Nat)
    (st : ParseState) (t : String) (rest : List String)
    (h1 : pyStartsWith t "--" = true) (h2 : fl.contains (pyDrop t 2) = false)
    (h3 : dictGet? ar (pyDrop t 2) = none) :
    parseLoop fl ar ns st none (t :: rest) = .error (.unrecognizedArgument (pyDrop t 2)) := by
  rw [parseLoop]
  simp only [h1, h2, h3, if_true, Bool.false_eq_true, if_false]

theorem parseLoop_long_arg (fl : List String) (ar : Dict Nat) (ns : List Nat)
    (st : ParseState) (t : String) (rest : List String) (id : Nat)
    (h1 : pyStartsWith t "--" = true) (h2 : fl.contains (pyDrop t 2) = false)
    (h3 : dictGet? ar (pyDrop t 2) = some id) :
    parseLoop fl ar ns st none (t :: rest) =
      if (st.heap.getD id defaultCLIArgument).nargs = 0 then
        parseLoop fl ar ns st none rest
      else
        parseLoop fl ar ns st
          (some ⟨pyDrop t 2, id, (st.heap.getD id defaultCLIArgument).nargs - 1⟩) rest := by
  rw [parseLoop]
  simp only [h1, h2, h3, if_true, Bool.false_eq_true, if_false]

theorem parseLoop_short (fl : List String) (ar : Dict Nat) (ns : List Nat)
    (st : ParseState) (t : String) (rest : List String)
    (h1 : pyStartsWith t "--" = false) (h2 : pyStartsWith t "-" = true) :
    parseLoop fl ar ns st none (t :: rest) =
      parseLoop fl ar ns (shortFormStep fl st (pyDrop t 1).data) none rest := by
  rw [parseLoop]
  simp only [h1, h2, if_true, Bool.false_eq_true, if_false]

theorem parseLoop_bare (fl : List String) (ar : Dict Nat) (ns : List Nat)
    (st : ParseState) (t : String) (rest : List String)
    (h1 : pyStartsWith t "--" = false) (h2 : pyStartsWith t "-" = false) :
    parseLoop fl ar ns st none (t :: rest) =
      match firstUnsatisfied st.heap ns with
      | none => .error (.noSlotForPositional t)
      | some id =>
          match castArgumentAndSet t id st with
          | .error e => .error e
          | .ok st' => parseLoop fl ar ns st' none rest := by
  rw [parseLoop]
  simp only [h1, h2, Bool.false_eq_true, if_false]

/-- Claim C10: a token consisting of exactly one hyphen is silently
skipped by the scan: it is classified as short form with zero characters
to iterate, so the state (results and diagnostics) is unchanged, no
following token is consumed, and the scan proceeds with the rest. -/
theorem single_hyphen_token_skipped (fl : List String) (ar : Dict Nat) (ns : List Nat)
    (st : ParseState) (rest : List String) :
    parseLoop fl ar ns st none ("-" :: rest) = parseLoop fl ar ns st none rest := by
  rw [parseLoop_short fl ar ns st "-" rest (by decide) (by decide)]
  rfl

/-- Claim C2 (code bug): with `arg_type` an integer instance — the
integer-tag branch of `_cast_to_desired_type` — the digit-validation code
raises `TypeError` inside its own `try` block for every token
(`token.startswith(DIGITS)` is called with a tuple of ints), so every
token, including the all-digit `"1234"` that the function's docstring
promises to convert to 1234, is rejected with a type-cast failure and
`SystemExit(1)`. -/
theorem integer_tag_cast_rejects_every_token :
    (∀ t : String, castToDesiredType t ArgType.intInstance = .error (.typeCastFailure t)) ∧
    castToDesiredType "1234" ArgType.intInstance = .error (.typeCastFailure "1234") ∧
    castToDesiredType "12a4" ArgType.intInstance = .error (.typeCastFailure "12a4") :=
  ⟨fun _ => rfl, rfl, rfl⟩

/-- Claim C8: `parser[name]` returns `results[name]` when the key is
present, and otherwise fails with the fatal `UnknownResultKey` error
(exit status 1, nonzero); it never returns a default value. -/
theorem getitem_returns_result_or_fatal (p : CLIParser) (k : String) :
    (∀ v, dictGet? p.results k = some v → p.getitem k = .ok v) ∧
    (dictGet? p.results k = none →
      p.getitem k = .error (.unknownResultKey k) ∧
      (∀ v : Value, p.getitem k ≠ .ok v) ∧ exitCode (.unknownResultKey k) ≠ 0) := by
  constructor
  · intro v hv
    simp [CLIParser.getitem, hv]
  · intro hn
    refine ⟨by simp [CLIParser.getitem, hn], ?_, by simp [exitCode]⟩
    intro v hv
    simp [CLIParser.getitem, hn] at hv

theorem getitem_returns_result_or_fatal_witness :
    exQ1.getitem "x" = .ok (Value.str "v") ∧
    (exQ1.getitem "zz" = .error (.unknownResultKey "zz") ∧
      (∀ v : Value, exQ1.getitem "zz" ≠ .ok v) ∧ exitCode (.unknownResultKey "zz") ≠ 0) :=
  ⟨(getitem_returns_result_or_fatal exQ1 "x").1 (Value.str "v") (by rfl),
   (getitem_returns_result_or_fatal exQ1 "zz").2 (by rfl)⟩

/-- Claim C1: in this (strict) version of the source, each of the four
fatal conditions makes the whole scan return immediately with the
corresponding error, regardless of any remaining tokens; `parse`
propagates the error unchanged (the `SystemExit(1)` is never caught), and
every fatal error carries the nonzero exit status 1. -/
theorem strict_fatal_conditions_abort :
    (∀ (fl : List String) (ar : Dict Nat) (ns : List Nat) (st : ParseState) (t : String)
        (rest : List String),
      pyStartsWith t "--" = true → fl.contains (pyDrop t 2) = false →
      dictGet? ar (pyDrop t 2) = none →
      parseLoop fl ar ns st none (t :: rest) = .error (.unrecognizedArgument (pyDrop t 2))) ∧
    (∀ (fl : List String) (ar : Dict Nat) (ns : List Nat) (st : ParseState) (t : String)
        (id : Nat),
      pyStartsWith t "--" = true → fl.contains (pyDrop t 2) = false →
      dictGet? ar (pyDrop t 2) = some id →
      (st.heap.getD id defaultCLIArgument).nargs ≠ 0 →
      parseLoop fl ar ns st none [t] = .error (.argumentStreamExhausted (pyDrop t 2))) ∧
    (∀ (fl : List String) (ar : Dict Nat) (ns : List Nat) (st : ParseState) (t : String)
        (id : Nat) (v : String) (rest : List String),
      pyStartsWith t "--" = true → fl.contains (pyDrop t 2) = false →
      dictGet? ar (pyDrop t 2) = some id →
      (st.heap.getD id defaultCLIArgument).nargs ≠ 0 →
      castToDesiredType v ((st.heap.getD id defaultCLIArgument).argType)
        = .error (.typeCastFailure v) →
      parseLoop fl ar ns st none (t :: v :: rest) = .error (.typeCastFailure v)) ∧
    (∀ (fl : List String) (ar : Dict Nat) (ns : List Nat) (st : ParseState) (t : String)
        (rest : List String),
      pyStartsWith t "--" = false → pyStartsWith t "-" = false →
      firstUnsatisfied st.heap ns = none →
      parseLoop fl ar ns st none (t :: rest) = .error (.noSlotForPositional t)) ∧
    (∀ (p : CLIParser) (ts : List String) (e : Fatal),
      parseLoop p.flags p.arguments p.nonSwitches ⟨initResults p, p.heap, []⟩ none ts
        = .error e → CLIParser.parse p ts = .error e) ∧
    (∀ e : Fatal, exitCode e ≠ 0) := by
  refine ⟨?_, ?_, ?_, ?_, ?_, ?_⟩
  · intro fl ar ns st t rest h1 h2 h3
    exact parseLoop_long_unrecognized fl ar ns st t rest h1 h2 h3
  · intro fl ar ns st t id h1 h2 h3 h4
    rw [parseLoop_long_arg fl ar ns st t [] id h1 h2 h3, if_neg h4, parseLoop_pending_nil]
  · intro fl ar ns st t id v rest h1 h2 h3 h4 h5
    rw [parseLoop_long_arg fl ar ns st t (v :: rest) id h1 h2 h3, if_neg h4,
      parseLoop_pending_cons]
    have hc : castArgumentAndSet v id st = .error (.typeCastFailure v) := by
      unfold castArgumentAndSet
      rw [h5]
    rw [hc]
  · intro fl ar ns st t rest h1 h2 h3
    rw [parseLoop_bare fl ar ns st t rest h1 h2, h3]
  · intro p ts e h
    unfold CLIParser.parse
    rw [h]
  · intro e
    simp [exitCode]

theorem strict_fatal_conditions_abort_witness :
    parseLoop [] [("x", 0)] [0] ⟨[("x", Value.none)], [argX], []⟩ none ["--zz"]
      = .error (.unrecognizedArgument "zz") ∧
    parseLoop [] [("x", 0)] [0] ⟨[("x", Value.none)], [argX], []⟩ none ["--x"]
      = .error (.argumentStreamExhausted "x") ∧
    parseLoop [] [("i", 0)] [0] ⟨[("i", Value.none)], [argI], []⟩ none ["--i", "12"]
      = .error (.typeCastFailure "12") ∧
    parseLoop [] [] [] ⟨[], [], []⟩ none ["w"] = .error (.noSlotForPositional "w") ∧
    CLIParser.parse exQ ["v", "w"] = .error (.noSlotForPositional "w") ∧
    exitCode (.noSlotForPositional "w") ≠ 0 := by
  refine ⟨?_, ?_, ?_, ?_, ?_, ?_⟩
  · exact strict_fatal_conditions_abort.1 [] [("x", 0)] [0] _ "--zz" []
      (by decide) (by decide) (by rfl)
  · exact strict_fatal_conditions_abort.2.1 [] [("x", 0)] [0] _ "--x" 0
      (by decide) (by decide) (by rfl) (by decide)
  · exact strict_fatal_conditions_abort.2.2.1 [] [("i", 0)] [0] _ "--i" 0 "12" []
      (by decide) (by decide) (by rfl) (by decide) (by rfl)
  · exact strict_fatal_conditions_abort.2.2.2.1 [] [] [] _ "w" []
      (by decide) (by decide) (by rfl)
  · exact strict_fatal_conditions_abort.2.2.2.2.1 exQ ["v", "w"] _ (by rfl)
  · exact strict_fatal_conditions_abort.2.2.2.2.2 _

/-- Claim C4: a short-form token is processed without consuming any
following token (the scan simply continues on the rest from non-pending
mode); every character after the hyphen ends up bound to `true` in
`results` whether registered or not, and every unregistered character
leaves a non-fatal `UnrecognizedFlag` diagnostic. -/
theorem short_form_sets_every_char (fl : List String) (ar : Dict Nat) (ns : List Nat)
    (st : ParseState) (t : String) (rest : List String)
    (h1 : pyStartsWith t "--" = false) (h2 : pyStartsWith t "-" = true) :
    parseLoop fl ar ns st none (t :: rest)
        = parseLoop fl ar ns (shortFormStep fl st (pyDrop t 1).data) none rest ∧
    (∀ c ∈ (pyDrop t 1).data,
      dictGet? (shortFormStep fl st (pyDrop t 1).data).results (String.singleton c)
        = some (Value.bool true)) ∧
    (∀ c ∈ (pyDrop t 1).data, fl.contains (String.singleton c) = false →
      Diag.unrecognizedFlag c ∈ (shortFormStep fl st (pyDrop t 1).data).diags) := by
  refine ⟨parseLoop_short fl ar ns st t rest h1 h2, ?_, ?_⟩
  · intro c hc
    exact shortFormStep_sets_true fl _ st c hc
  · intro c hc hflag
    exact shortFormStep_warns fl _ st c hc hflag

theorem short_form_sets_every_char_witness :
    parseLoop ["a"] [] [] ⟨[("a", Value.bool false)], [], []⟩ none ["-ab"]
        = parseLoop ["a"] [] []
            (shortFormStep ["a"] ⟨[("a", Value.bool false)], [], []⟩ (pyDrop "-ab" 1).data)
            none [] ∧
    dictGet? (shortFormStep ["a"] ⟨[("a", Value.bool false)], [], []⟩
        (pyDrop "-ab" 1).data).results "a" = some (Value.bool true) ∧
    dictGet? (shortFormStep ["a"] ⟨[("a", Value.bool false)], [], []⟩
        (pyDrop "-ab" 1).data).results "b" = some (Value.bool true) ∧
    Diag.unrecognizedFlag 'b' ∈ (shortFormStep ["a"] ⟨[("a", Value.bool false)], [], []⟩
        (pyDrop "-ab" 1).data).diags := by
  have h := short_form_sets_every_char ["a"] [] [] ⟨[("a", Value.bool false)], [], []⟩
    "-ab" [] (by decide) (by decide)
  exact ⟨h.1, h.2.1 'a' (by decide), h.2.1 'b' (by decide), h.2.2 'b' (by decide) (by decide)⟩

theorem postWarns_mem (st : ParseState) (ar : Dict Nat) :
    ∀ (acc : List Diag) (d : Diag),
      (d ∈ ar.foldl
        (fun acc pr =>
          let a := st.heap.getD pr.2 defaultCLIArgument
          if a.satisfied then acc else acc ++ [Diag.underSatisfiedArgument a.name]) acc) ↔
      (d ∈ acc ∨ ∃ pr ∈ ar, (st.heap.getD pr.2 defaultCLIArgument).satisfied = false ∧
        d = Diag.underSatisfiedArgument (st.heap.getD pr.2 defaultCLIArgument).name) := by
  induction ar with
  | nil => intro acc d; simp
  | cons pr0 ar ih =>
      intro acc d
      simp only [List.foldl_cons]
      by_cases hs : (st.heap.getD pr0.2 defaultCLIArgument).satisfied = true
      · simp only [hs, if_true]
        rw [ih]
        constructor
        · intro h
          rcases h with h | ⟨pr, hpr, hsat, hd⟩
          · exact Or.inl h
          · exact Or.inr ⟨pr, List.mem_cons_of_mem _ hpr, hsat, hd⟩
        · intro h
          rcases h with h | ⟨pr, hpr, hsat, hd⟩
          · exact Or.inl h
          · rcases List.mem_cons.mp hpr with h2 | h2
            · subst h2
              rw [hs] at hsat
              cases hsat
            · exact Or.inr ⟨pr, h2, hsat, hd⟩
      · simp only [hs, if_false, Bool.false_eq_true]
        rw [ih]
        simp only [List.mem_append, List.mem_singleton]
        constructor
        · intro h
          rcases h with (h | h) | ⟨pr, hpr, hsat, hd⟩
          · exact Or.inl h
          · exact Or.inr ⟨pr0, List.mem_cons_self _ _,
              by simpa using hs, h⟩
          · exact Or.inr ⟨pr, List.mem_cons_of_mem _ hpr, hsat, hd⟩
        · intro h
          rcases h with h | ⟨pr, hpr, hsat, hd⟩
          · exact Or.inl (Or.inl h)
          · rcases List.mem_cons.mp hpr with h2 | h2
            · subst h2
              exact Or.inl (Or.inr hd)
            · exact Or.inr ⟨pr, h2, hsat, hd⟩

/-- Claim C6 (code bug): the post-parse check warns for every registered
argument whose `satisfied` is false — the `CLIArgument` dataclass has no
`is_optional` field, so optionality cannot exempt anything (src/main.py
even passes `optional=True`, a keyword the dataclass would reject).
Concretely, parsing no tokens with the parser declared in src/main.py
(both of whose arguments are declared `optional=True` there) still warns
for `n` and for `data`.  The check itself only appends warnings and can
neither raise nor exit. -/
theorem post_parse_check_ignores_optionality :
    (∀ (ar : Dict Nat) (st : ParseState) (nm : String),
      Diag.underSatisfiedArgument nm ∈ (postParsingCheck ar st).diags ↔
        (Diag.underSatisfiedArgument nm ∈ st.diags ∨
          ∃ pr ∈ ar, (st.heap.getD pr.2 defaultCLIArgument).satisfied = false ∧
            Diag.underSatisfiedArgument nm
              = Diag.underSatisfiedArgument (st.heap.getD pr.2 defaultCLIArgument).name)) ∧
    Except.map (fun r => r.2) (CLIParser.parse exMain [])
      = .ok [Diag.underSatisfiedArgument "n", Diag.underSatisfiedArgument "data"] := by
  constructor
  · intro ar st nm
    simp only [postParsingCheck, List.mem_append]
    rw [postWarns_mem st ar [] (Diag.underSatisfiedArgument nm)]
    simp
  · rfl

/-- Claim C3 counterexample: parsing `["-z"]` with only the flag `a`
registered completes (the unrecognised short-form character is
non-fatal), yet the results mapping has keys `a` and `z`, and `z` is
neither a registered flag name nor a registered argument name — so "no
other keys appear in results" is false. -/
theorem results_keys_counterexample :
    Except.map (fun r => dictKeys r.1.results) (CLIParser.parse exF ["-z"]) = .ok ["a", "z"] ∧
    ¬("z" ∈ exF.flags) ∧ ¬("z" ∈ dictKeys exF.arguments) :=
  ⟨rfl, by decide, by decide⟩

theorem shortChar_cons {rest : List String} {k : String} (t : String)
    (h : shortChar rest k) : shortChar (t :: rest) k := by
  rcases h with ⟨t', ht', h1, h2, c, hc, hck⟩
  exact ⟨t', List.mem_cons_of_mem _ ht', h1, h2, c, hc, hck⟩

theorem dictUnion_keys {α : Type} (d2 d1 : Dict α) (k : String)
    (h : k ∈ dictKeys (dictUnion d1 d2)) : k ∈ dictKeys d1 ∨ k ∈ dictKeys d2 := by
  induction d2 generalizing d1 with
  | nil => exact Or.inl h
  | cons pr d2 ih =>
      have h2 : k ∈ dictKeys (dictUnion (dictSet d1 pr.1 pr.2) d2) := h
      rcases ih _ h2 with h3 | h3
      · rcases dictKeys_dictSet _ _ _ _ h3 with h4 | h4
        · exact Or.inr (by simp [dictKeys, h4])
        · exact Or.inl h4
      · exact Or.inr (by simp only [dictKeys, List.map_cons, List.mem_cons]; exact Or.inr h3)

theorem initResults_keys (p : CLIParser) (k : String)
    (h : k ∈ dictKeys (initResults p)) : k ∈ p.flags ∨ k ∈ dictKeys p.arguments := by
  rcases dictUnion_keys _ _ _ h with h1 | h1
  · left
    simpa [dictKeys, List.mem_map] using h1
  · right
    simpa [dictKeys, List.mem_map] using h1

theorem parseLoop_keys (fl : List String) (ar : Dict Nat) (ns : List Nat) (ts : List String) :
    ∀ (st : ParseState) (pd : Option Pending) (stf : ParseState),
      (∀ pr ∈ ar, ((st.heap.getD pr.2 defaultCLIArgument).name) = pr.1) →
      (∀ id ∈ ns, ∃ pr ∈ ar, pr.2 = id) →
      (∀ q : Pending, pd = some q → ∃ pr ∈ ar, pr.2 = q.argId) →
      parseLoop fl ar ns st pd ts = .ok stf →
      ∀ k ∈ dictKeys stf.results,
        k ∈ dictKeys st.results ∨ k ∈ fl ∨ k ∈ dictKeys ar ∨ shortChar ts k := by
  induction ts with
  | nil =>
      intro st pd stf Hn Hns Hpd h k hk
      cases pd with
      | none =>
          rw [parseLoop_nil] at h
          injection h with h1
          subst h1
          exact Or.inl hk
      | some q => rw [parseLoop_pending_nil] at h; cases h
  | cons t rest ih =>
      intro st pd stf Hn Hns Hpd h k hk
      cases pd with
      | some q =>
          rw [parseLoop_pending_cons] at h
          cases hc : castArgumentAndSet t q.argId st with
          | error e => rw [hc] at h; cases h
          | ok st1 =>
              rw [hc] at h
              dsimp only at h
              have Hn1 : ∀ pr ∈ ar, ((st1.heap.getD pr.2 defaultCLIArgument).name) = pr.1 := by
                intro pr hpr
                rw [castArgumentAndSet_ok_name hc]
                exact Hn pr hpr
              rcases Hpd q rfl with ⟨pr, hpr, hpreq⟩
              have hname : (st.heap.getD q.argId defaultCLIArgument).name ∈ dictKeys ar := by
                rw [← hpreq]
                rw [Hn pr hpr]
                exact List.mem_map.mpr ⟨pr, hpr, rfl⟩
              have hkey : ∀ k ∈ dictKeys st1.results,
                  k ∈ dictKeys st.results ∨ k ∈ dictKeys ar := by
                intro k1 hk1
                rcases (castArgumentAndSet_ok hc).2.2 with ⟨w, hres⟩
                rw [hres] at hk1
                rcases dictKeys_dictSet _ _ _ _ hk1 with h2 | h2
                · subst h2; exact Or.inr hname
                · exact Or.inl h2
              by_cases hm : q.more = 0
              · rw [if_pos hm] at h
                rcases ih st1 none stf Hn1 Hns (by intro q1 hq1; cases hq1) h k hk with
                  h1 | h1 | h1 | h1
                · rcases hkey k h1 with h2 | h2
                  · exact Or.inl h2
                  · exact Or.inr (Or.inr (Or.inl h2))
                · exact Or.inr (Or.inl h1)
                · exact Or.inr (Or.inr (Or.inl h1))
                · exact Or.inr (Or.inr (Or.inr (shortChar_cons t h1)))
              · rw [if_neg hm] at h
                have Hpd1 : ∀ q1 : Pending,
                    (some (⟨q.argName, q.argId, q.more - 1⟩ : Pending)) = some q1 →
                    ∃ pr1 ∈ ar, pr1.2 = q1.argId := by
                  intro q1 hq1
                  injection hq1 with hq2
                  subst hq2
                  exact ⟨pr, hpr, hpreq⟩
                rcases ih st1 _ stf Hn1 Hns Hpd1 h k hk with h1 | h1 | h1 | h1
                · rcases hkey k h1 with h2 | h2
                  · exact Or.inl h2
                  · exact Or.inr (Or.inr (Or.inl h2))
                · exact Or.inr (Or.inl h1)
                · exact Or.inr (Or.inr (Or.inl h1))
                · exact Or.inr (Or.inr (Or.inr (shortChar_cons t h1)))
      | none =>
          by_cases h1 : pyStartsWith t "--" = true
          · by_cases h2 : fl.contains (pyDrop t 2) = true
            · rw [parseLoop_long_flag fl ar ns st t rest h1 h2] at h
              rcases ih { st with results := dictSet st.results (pyDrop t 2) (Value.bool true) }
                  none stf Hn Hns (by intro q1 hq1; cases hq1) h k hk with
                hh | hh | hh | hh
              · rcases dictKeys_dictSet _ _ _ _ hh with h3 | h3
                · subst h3
                  exact Or.inr (Or.inl (contains_true_iff_mem.mp h2))
                · exact Or.inl h3
              · exact Or.inr (Or.inl hh)
              · exact Or.inr (Or.inr (Or.inl hh))
              · exact Or.inr (Or.inr (Or.inr (shortChar_cons t hh)))
            · rw [Bool.not_eq_true] at h2
              cases h3 : dictGet? ar (pyDrop t 2) with
              | none => rw [parseLoop_long_unrecognized fl ar ns st t rest h1 h2 h3] at h; cases h
              | some id =>
                  rw [parseLoop_long_arg fl ar ns st t rest id h1 h2 h3] at h
                  have hmem : ∃ pr ∈ ar, pr.2 = id := ⟨(pyDrop t 2, id), dictGet?_mem h3, rfl⟩
                  by_cases h4 : (st.heap.getD id defaultCLIArgument).nargs = 0
                  · rw [if_pos h4] at h
                    rcases ih st none stf Hn Hns (by intro q1 hq1; cases hq1) h k hk with
                      hh | hh | hh | hh
                    · exact Or.inl hh
                    · exact Or.inr (Or.inl hh)
                    · exact Or.inr (Or.inr (Or.inl hh))
                    · exact Or.inr (Or.inr (Or.inr (shortChar_cons t hh)))
                  · rw [if_neg h4] at h
                    have Hpd1 : ∀ q1 : Pending,
                        (some (⟨pyDrop t 2, id,
                          (st.heap.getD id defaultCLIArgument).nargs - 1⟩ : Pending)) = some q1 →
                        ∃ pr1 ∈ ar, pr1.2 = q1.argId := by
                      intro q1 hq1
                      injection hq1 with hq2
                      subst hq2
                      exact hmem
                    rcases ih st _ stf Hn Hns Hpd1 h k hk with hh | hh | hh | hh
                    · exact Or.inl hh
                    · exact Or.inr (Or.inl hh)
                    · exact Or.inr (Or.inr (Or.inl hh))
                    · exact Or.inr (Or.inr (Or.inr (shortChar_cons t hh)))
          · rw [Bool.not_eq_true] at h1
            by_cases h2 : pyStartsWith t "-" = true
            · rw [parseLoop_short fl ar ns st t rest h1 h2] at h
              have Hn1 : ∀ pr ∈ ar,
                  (((shortFormStep fl st (pyDrop t 1).data).heap.getD pr.2
                    defaultCLIArgument).name) = pr.1 := by
                intro pr hpr
                rw [shortFormStep_heap]
                exact Hn pr hpr
              rcases ih (shortFormStep fl st (pyDrop t 1).data) none stf Hn1 Hns
                  (by intro q1 hq1; cases hq1) h k hk with
                hh | hh | hh | hh
              · rcases shortFormStep_keys fl _ st k hh with h3 | h3
                · exact Or.inl h3
                · rcases h3 with ⟨c, hc, hck⟩
                  exact Or.inr (Or.inr (Or.inr
                    ⟨t, List.mem_cons_self _ _, h1, h2, c, hc, hck⟩))
              · exact Or.inr (Or.inl hh)
              · exact Or.inr (Or.inr (Or.inl hh))
              · exact Or.inr (Or.inr (Or.inr (shortChar_cons t hh)))
            · rw [Bool.not_eq_true] at h2
              rw [parseLoop_bare fl ar ns st t rest h1 h2] at h
              cases h3 : firstUnsatisfied st.heap ns with
              | none => rw [h3] at h; cases h
              | some id =>
                  rw [h3] at h
                  dsimp only at h
                  cases hc : castArgumentAndSet t id st with
                  | error e => rw [hc] at h; cases h
                  | ok st1 =>
                      rw [hc] at h
                      dsimp only at h
                      have Hn1 : ∀ pr ∈ ar,
                          ((st1.heap.getD pr.2 defaultCLIArgument).name) = pr.1 := by
                        intro pr hpr
                        rw [castArgumentAndSet_ok_name hc]
                        exact Hn pr hpr
                      rcases Hns id (firstUnsatisfied_mem h3) with ⟨pr, hpr, hpreq⟩
                      have hname : (st.heap.getD id defaultCLIArgument).name ∈ dictKeys ar := by
                        rw [← hpreq, Hn pr hpr]
                        exact List.mem_map.mpr ⟨pr, hpr, rfl⟩
                      rcases ih st1 none stf Hn1 Hns (by intro q1 hq1; cases hq1) h k hk with
                        hh | hh | hh | hh
                      · rcases (castArgumentAndSet_ok hc).2.2 with ⟨w, hres⟩
                        rw [hres] at hh
                        rcases dictKeys_dictSet _ _ _ _ hh with h4 | h4
                        · subst h4; exact Or.inr (Or.inr (Or.inl hname))
                        · exact Or.inl h4
                      · exact Or.inr (Or.inl hh)
                      · exact Or.inr (Or.inr (Or.inl hh))
                      · exact Or.inr (Or.inr (Or.inr (shortChar_cons t hh)))

/-- Claim C3 (amended): after any completed parse call, every key of the
results mapping is a registered flag name, a registered argument name, or
a single character occurring after the hyphen of some short-form token of
the input (such character keys, bound to true whether registered or not,
are what the original claim excluded).  Stated for parsers whose argument
objects carry the name they are registered under and whose positional
snapshot references only registered arguments — true of every parser
produced by registration. -/
theorem results_keys_after_parse (p : CLIParser) (ts : List String)
    (p' : CLIParser) (ds : List Diag)
    (Hn : ∀ pr ∈ p.arguments, ((p.heap.getD pr.2 defaultCLIArgument).name) = pr.1)
    (Hns : ∀ id ∈ p.nonSwitches, ∃ pr ∈ p.arguments, pr.2 = id)
    (hp : CLIParser.parse p ts = .ok (p', ds)) :
    ∀ k ∈ dictKeys p'.results, k ∈ p.flags ∨ k ∈ dictKeys p.arguments ∨ shortChar ts k := by
  intro k hk
  unfold CLIParser.parse at hp
  cases hloop : parseLoop p.flags p.arguments p.nonSwitches
      ⟨initResults p, p.heap, []⟩ none ts with
  | error e => rw [hloop] at hp; cases hp
  | ok stf =>
      rw [hloop] at hp
      dsimp only at hp
      injection hp with hpair
      injection hpair with hp1 hp2
      have hk2 : k ∈ dictKeys stf.results := by
        rw [← hp1] at hk
        exact hk
      rcases parseLoop_keys p.flags p.arguments p.nonSwitches ts
          ⟨initResults p, p.heap, []⟩ none stf Hn Hns
          (by intro q hq; cases hq) hloop k hk2 with h | h | h | h
      · rcases initResults_keys p k h with h2 | h2
        · exact Or.inl h2
        · exact Or.inr (Or.inl h2)
      · exact Or.inl h
      · exact Or.inr (Or.inl h)
      · exact Or.inr (Or.inr h)

theorem results_keys_after_parse_witness :
    "z" ∈ exF2.flags ∨ "z" ∈ dictKeys exF2.arguments ∨ shortChar ["-z", "w"] "z" :=
  results_keys_after_parse exF2 ["-z", "w"]
    { flags := ["a"], arguments := [("x", 0)], nonSwitches := [0],
      heap := [{ argX with currentArgs := 1 }],
      results := [("a", Value.bool false), ("x", Value.str "w"), ("z", Value.bool true)] }
    [Diag.unrecognizedFlag 'z']
    (by decide) (by decide) (by rfl) "z" (by decide)

/-- Claim C7 counterexample: with the single arity-1 positional argument
`x`, a first `parse(["v"])` advances `x.current_args` to 1 on the shared
definition object; a second `parse(["w"])` on the resulting instance
finds `x` already satisfied although it receives no value in that call,
and the bare token `w` aborts with `NoSlotForPositional` — the
consumed count does carry over. -/
theorem consumed_count_carryover_counterexample :
    CLIParser.parse exQ ["v"] = .ok (exQ1, []) ∧
    (exQ1.heap.getD 0 defaultCLIArgument).satisfied = true ∧
    CLIParser.parse exQ1 ["w"] = .error (.noSlotForPositional "w") :=
  ⟨rfl, rfl, rfl⟩

theorem parseLoop_currentArgs_mono (fl : List String) (ar : Dict Nat) (ns : List Nat)
    (ts : List String) :
    ∀ (st : ParseState) (pd : Option Pending) (stf : ParseState),
      parseLoop fl ar ns st pd ts = .ok stf →
      ∀ i : Nat, (st.heap.getD i defaultCLIArgument).currentArgs
        ≤ (stf.heap.getD i defaultCLIArgument).currentArgs := by
  induction ts with
  | nil =>
      intro st pd stf h i
      cases pd with
      | none =>
          rw [parseLoop_nil] at h
          injection h with h1
          subst h1
          exact Nat.le_refl _
      | some q => rw [parseLoop_pending_nil] at h; cases h
  | cons t rest ih =>
      intro st pd stf h i
      cases pd with
      | some q =>
          rw [parseLoop_pending_cons] at h
          cases hc : castArgumentAndSet t q.argId st with
          | error e => rw [hc] at h; cases h
          | ok st1 =>
              rw [hc] at h
              dsimp only at h
              by_cases hm : q.more = 0
              · rw [if_pos hm] at h
                exact Nat.le_trans (castArgumentAndSet_ok_currentArgs hc i)
                  (ih st1 none stf h i)
              · rw [if_neg hm] at h
                exact Nat.le_trans (castArgumentAndSet_ok_currentArgs hc i)
                  (ih st1 _ stf h i)
      | none =>
          by_cases h1 : pyStartsWith t "--" = true
          · by_cases h2 : fl.contains (pyDrop t 2) = true
            · rw [parseLoop_long_flag fl ar ns st t rest h1 h2] at h
              exact ih { st with results := dictSet st.results (pyDrop t 2) (Value.bool true) }
                none stf h i
            · rw [Bool.not_eq_true] at h2
              cases h3 : dictGet? ar (pyDrop t 2) with
              | none =>
                  rw [parseLoop_long_unrecognized fl ar ns st t rest h1 h2 h3] at h
                  cases h
              | some id =>
                  rw [parseLoop_long_arg fl ar ns st t rest id h1 h2 h3] at h
                  by_cases h4 : (st.heap.getD id defaultCLIArgument).nargs = 0
                  · rw [if_pos h4] at h
                    exact ih st none stf h i
                  · rw [if_neg h4] at h
                    exact ih st _ stf h i
          · rw [Bool.not_eq_true] at h1
            by_cases h2 : pyStartsWith t "-" = true
            · rw [parseLoop_short fl ar ns st t rest h1 h2] at h
              have h5 := ih (shortFormStep fl st (pyDrop t 1).data) none stf h i
              rwa [shortFormStep_heap] at h5
            · rw [Bool.not_eq_true] at h2
              rw [parseLoop_bare fl ar ns st t rest h1 h2] at h
              cases h3 : firstUnsatisfied st.heap ns with
              | none => rw [h3] at h; cases h
              | some id =>
                  rw [h3] at h
                  dsimp only at h
                  cases hc : castArgumentAndSet t id st with
                  | error e => rw [hc] at h; cases h
                  | ok st1 =>
                      rw [hc] at h
                      dsimp only at h
                      exact Nat.le_trans (castArgumentAndSet_ok_currentArgs hc i)
                        (ih st1 none stf h i)

/-- Claim C7 (amended): `parse` carries `consumed_count` over between
calls on the same instance: it never resets `current_args` — across any
successful `parse` call the counter of every shared argument object can
only stay or grow, so values consumed in an earlier call still count
toward `satisfied` in a later call even when the argument receives
nothing there. -/
theorem parse_never_resets_consumed_count (p : CLIParser) (ts : List String)
    (p' : CLIParser) (ds : List Diag) (hp : CLIParser.parse p ts = .ok (p', ds)) :
    ∀ i : Nat, (p.heap.getD i defaultCLIArgument).currentArgs
      ≤ (p'.heap.getD i defaultCLIArgument).currentArgs := by
  intro i
  unfold CLIParser.parse at hp
  cases hloop : parseLoop p.flags p.arguments p.nonSwitches
      ⟨initResults p, p.heap, []⟩ none ts with
  | error e => rw [hloop] at hp; cases hp
  | ok stf =>
      rw [hloop] at hp
      dsimp only at hp
      injection hp with hpair
      injection hpair with hp1 hp2
      rw [← hp1]
      exact parseLoop_currentArgs_mono p.flags p.arguments p.nonSwitches ts
        ⟨initResults p, p.heap, []⟩ none stf hloop i

theorem parse_never_resets_consumed_count_witness :
    (exQ.heap.getD 0 defaultCLIArgument).currentArgs
      ≤ (exQ1.heap.getD 0 defaultCLIArgument).currentArgs :=
  parse_never_resets_consumed_count exQ ["v"] exQ1 [] (by rfl) 0

theorem getD_append_length {α : Type} (l : List α) (a d : α) :
    (l ++ [a]).getD l.length d = a := by
  rw [List.getD_eq_getElem?_getD, List.getElem?_concat_length]
  rfl

theorem dictSet_append {α : Type} {d : Dict α} {k : String} (v : α)
    (h : dictGet? d k = none) : dictSet d k v = d ++ [(k, v)] := by
  induction d with
  | nil => rfl
  | cons pr d ih =>
      by_cases h1 : pr.1 = k
      · simp only [dictGet?, if_pos h1] at h
        cases h
      · simp only [dictGet?, if_neg h1] at h
        simp only [dictSet, if_neg h1, List.cons_append, List.cons.injEq, true_and]
        exact ih h

theorem parseLoop_preserves_new (fl : List String) (ar : Dict Nat) (ns : List Nat)
    (name : String) (newId : Nat) (ts : List String) :
    ∀ (st : ParseState) (pd : Option Pending) (stf : ParseState),
      (∀ r id, r ≠ name → dictGet? ar r = some id → id ≠ newId) →
      (∀ id ∈ ns, id ≠ newId) →
      (∀ q : Pending, pd = some q → q.argId ≠ newId) →
      (∀ t ∈ ts, ¬(pyStartsWith t "--" = true ∧ pyDrop t 2 = name)) →
      parseLoop fl ar ns st pd ts = .ok stf →
      stf.heap.getD newId defaultCLIArgument = st.heap.getD newId defaultCLIArgument := by
  induction ts with
  | nil =>
      intro st pd stf Hlook Hns2 Hpd Hts h
      cases pd with
      | none =>
          rw [parseLoop_nil] at h
          injection h with h1
          subst h1
          rfl
      | some q => rw [parseLoop_pending_nil] at h; cases h
  | cons t rest ih =>
      intro st pd stf Hlook Hns2 Hpd Hts h
      have Hts' : ∀ t' ∈ rest, ¬(pyStartsWith t' "--" = true ∧ pyDrop t' 2 = name) :=
        fun t' ht' => Hts t' (List.mem_cons_of_mem _ ht')
      cases pd with
      | some q =>
          rw [parseLoop_pending_cons] at h
          cases hc : castArgumentAndSet t q.argId st with
          | error e => rw [hc] at h; cases h
          | ok st1 =>
              rw [hc] at h
              dsimp only at h
              have hq : q.argId ≠ newId := Hpd q rfl
              have hpres := castArgumentAndSet_ok_other hc newId hq
              by_cases hm : q.more = 0
              · rw [if_pos hm] at h
                rw [ih st1 none stf Hlook Hns2 (by intro q1 hq1; cases hq1) Hts' h, hpres]
              · rw [if_neg hm] at h
                rw [ih st1 _ stf Hlook Hns2
                  (by intro q1 hq1; injection hq1 with hq2; subst hq2; exact hq) Hts' h, hpres]
      | none =>
          by_cases h1 : pyStartsWith t "--" = true
          · by_cases h2 : fl.contains (pyDrop t 2) = true
            · rw [parseLoop_long_flag fl ar ns st t rest h1 h2] at h
              exact ih { st with results := dictSet st.results (pyDrop t 2) (Value.bool true) }
                none stf Hlook Hns2 (by intro q1 hq1; cases hq1) Hts' h
            · rw [Bool.not_eq_true] at h2
              cases h3 : dictGet? ar (pyDrop t 2) with
              | none =>
                  rw [parseLoop_long_unrecognized fl ar ns st t rest h1 h2 h3] at h
                  cases h
              | some id =>
                  have hrn : pyDrop t 2 ≠ name := by
                    intro hr
                    exact Hts t (List.mem_cons_self _ _) ⟨h1, hr⟩
                  have hid : id ≠ newId := Hlook _ id hrn h3
                  rw [parseLoop_long_arg fl ar ns st t rest id h1 h2 h3] at h
                  by_cases h4 : (st.heap.getD id defaultCLIArgument).nargs = 0
                  · rw [if_pos h4] at h
                    exact ih st none stf Hlook Hns2 (by intro q1 hq1; cases hq1) Hts' h
                  · rw [if_neg h4] at h
                    exact ih st _ stf Hlook Hns2
                      (by intro q1 hq1; injection hq1 with hq2; subst hq2; exact hid) Hts' h
          · rw [Bool.not_eq_true] at h1
            by_cases h2 : pyStartsWith t "-" = true
            · rw [parseLoop_short fl ar ns st t rest h1 h2] at h
              have h5 := ih (shortFormStep fl st (pyDrop t 1).data) none stf Hlook Hns2
                (by intro q1 hq1; cases hq1) Hts' h
              rwa [shortFormStep_heap] at h5
            · rw [Bool.not_eq_true] at h2
              rw [parseLoop_bare fl ar ns st t rest h1 h2] at h
              cases h3 : firstUnsatisfied st.heap ns with
              | none => rw [h3] at h; cases h
              | some id =>
                  rw [h3] at h
                  dsimp only at h
                  cases hc : castArgumentAndSet t id st with
                  | error e => rw [hc] at h; cases h
                  | ok st1 =>
                      rw [hc] at h
                      dsimp only at h
                      have hid : id ≠ newId := Hns2 id (firstUnsatisfied_mem h3)
                      rw [ih st1 none stf Hlook Hns2 (by intro q1 hq1; cases hq1) Hts' h,
                        castArgumentAndSet_ok_other hc newId hid]

/-- Claim C9: the positional snapshot is fixed at construction: an
argument registered under a fresh name via `add_argument` after the
instance was constructed gets a default null entry when `results` is
initialised and stays reachable through the long-form lookup, but the
bare-token dispatch never touches it — after any completed parse whose
tokens contain no long-form reference to the new name, the new object is
exactly as registered (in particular its `current_args` is unchanged),
even though it is non-switch and unsatisfied. -/
theorem late_added_argument_never_positional (p : CLIParser) (name : String)
    (arg : CLIArgument) (ts : List String)
    (Hb : ∀ pr ∈ p.arguments, pr.2 < p.heap.length)
    (Hnsb : ∀ id ∈ p.nonSwitches, id < p.heap.length)
    (Hfresh : dictGet? p.arguments name = none)
    (_Hsw : arg.switch = false) (_Hunsat : arg.satisfied = false)
    (Hts : ∀ t ∈ ts, ¬(pyStartsWith t "--" = true ∧ pyDrop t 2 = name)) :
    dictGet? (initResults (p.addArgument name arg)) name = some Value.none ∧
    dictGet? (p.addArgument name arg).arguments name = some p.heap.length ∧
    (p.addArgument name arg).heap.getD p.heap.length defaultCLIArgument = arg ∧
    (∀ (p' : CLIParser) (ds : List Diag),
      CLIParser.parse (p.addArgument name arg) ts = .ok (p', ds) →
      p'.heap.getD p.heap.length defaultCLIArgument = arg) := by
  have hargs : (p.addArgument name arg).arguments = p.arguments ++ [(name, p.heap.length)] := by
    simp only [CLIParser.addArgument]
    exact dictSet_append _ Hfresh
  have hheapD : (p.addArgument name arg).heap.getD p.heap.length defaultCLIArgument = arg := by
    simp only [CLIParser.addArgument]
    exact getD_append_length _ _ _
  refine ⟨?_, ?_, hheapD, ?_⟩
  · unfold initResults
    rw [hargs]
    rw [List.map_append]
    show dictGet? (dictUnion _ (_ ++ [(name, Value.none)])) name = some Value.none
    unfold dictUnion
    rw [List.foldl_append]
    exact dictGet?_dictSet_self _ _ _
  · simp only [CLIParser.addArgument]
    exact dictGet?_dictSet_self _ _ _
  · intro p' ds hp
    unfold CLIParser.parse at hp
    cases hloop : parseLoop (p.addArgument name arg).flags (p.addArgument name arg).arguments
        (p.addArgument name arg).nonSwitches
        ⟨initResults (p.addArgument name arg), (p.addArgument name arg).heap, []⟩ none ts with
    | error e => rw [hloop] at hp; cases hp
    | ok stf =>
        rw [hloop] at hp
        dsimp only at hp
        injection hp with hpair
        injection hpair with hp1 hp2
        have hpres := parseLoop_preserves_new (p.addArgument name arg).flags
          (p.addArgument name arg).arguments (p.addArgument name arg).nonSwitches
          name p.heap.length ts
          ⟨initResults (p.addArgument name arg), (p.addArgument name arg).heap, []⟩ none stf
          ?_ ?_ (by intro q1 hq1; cases hq1) Hts hloop
        · rw [← hp1]
          show stf.heap.getD p.heap.length defaultCLIArgument = arg
          rw [hpres]
          exact hheapD
        · intro r id hr hget
          simp only [CLIParser.addArgument] at hget
          rw [dictGet?_dictSet_ne _ _ _ _ (fun hn => hr hn.symm)] at hget
          have := Hb _ (dictGet?_mem hget)
          exact Nat.ne_of_lt this
        · intro id hid
          exact Nat.ne_of_lt (Hnsb id hid)

theorem late_added_argument_never_positional_witness :
    dictGet? (initResults (exQ.addArgument "y" argY)) "y" = some Value.none ∧
    dictGet? (exQ.addArgument "y" argY).arguments "y" = some 1 ∧
    (exQ.addArgument "y" argY).heap.getD 1 defaultCLIArgument = argY ∧
    ({ flags := [], arguments := [("x", 0), ("y", 1)], nonSwitches := [0],
       heap := [{ argX with currentArgs := 1 }, argY],
       results := [("x", Value.str "bare"), ("y", Value.none)] }
        : CLIParser).heap.getD 1 defaultCLIArgument = argY := by
  have h := late_added_argument_never_positional exQ "y" argY ["bare"]
    (by decide) (by decide) (by rfl) (by rfl) (by rfl) (by decide)
  exact ⟨h.1, h.2.1, h.2.2.1,
    h.2.2.2 { flags := [], arguments := [("x", 0), ("y", 1)], nonSwitches := [0],
              heap := [{ argX with currentArgs := 1 }, argY],
              results := [("x", Value.str "bare"), ("y", Value.none)] }
      [Diag.underSatisfiedArgument "y"] (by rfl)⟩

/-- Claim C5 counterexample: for the arity-1 string argument `x` (the
first unsatisfied non-switch argument), the long form
`["--x", "-a"]` stores the raw token `"-a"` in `results["x"]`, while the
same raw token passed positionally (`["-a"]`) is classified as a
short-form flag cluster instead, leaving `results["x"]` null — the
stored values differ, so the equivalence does not hold for arbitrary raw
tokens. -/
theorem long_form_positional_counterexample :
    Except.map (fun r => dictGet? r.1.results "x") (CLIParser.parse exQ ["--x", "-a"])
      = .ok (some (Value.str "-a")) ∧
    Except.map (fun r => dictGet? r.1.results "x") (CLIParser.parse exQ ["-a"])
      = .ok (some Value.none) ∧
    Value.str "-a" ≠ Value.none :=
  ⟨rfl, rfl, fun h => Value.noConfusion h⟩

theorem parseLoop_pending_eq_positional (fl : List String) (ar : Dict Nat) (ns : List Nat)
    (id : Nat) (nm : String) :
    ∀ (vs : List String) (st : ParseState),
      id < st.heap.length →
      (st.heap.getD id defaultCLIArgument).currentArgs + vs.length
        = (st.heap.getD id defaultCLIArgument).nargs →
      (∀ v ∈ vs, pyStartsWith v "--" = false ∧ pyStartsWith v "-" = false) →
      ((st.heap.getD id defaultCLIArgument).satisfied = false →
        firstUnsatisfied st.heap ns = some id) →
      vs ≠ [] →
      parseLoop fl ar ns st (some ⟨nm, id, vs.length - 1⟩) vs
        = parseLoop fl ar ns st none vs := by
  intro vs
  induction vs with
  | nil => intro st _ _ _ _ hne; exact absurd rfl hne
  | cons v vs ih =>
      intro st hlen hcount hbare hfu _
      have ha : (st.heap.getD id defaultCLIArgument).satisfied = false := by
        simp only [CLIArgument.satisfied, decide_eq_false_iff_not]
        simp only [List.length_cons] at hcount
        omega
      have hfu2 := hfu ha
      simp only [List.length_cons, Nat.add_sub_cancel]
      rw [parseLoop_pending_cons,
        parseLoop_bare fl ar ns st v vs (hbare v (List.mem_cons_self _ _)).1
          (hbare v (List.mem_cons_self _ _)).2, hfu2]
      dsimp only
      cases hc : castArgumentAndSet v id st with
      | error e => rfl
      | ok st1 =>
          dsimp only
          by_cases hvs : vs.length = 0
          · rw [if_pos hvs]
          · rw [if_neg hvs]
            have hst1 : st1.heap.getD id defaultCLIArgument
                = { st.heap.getD id defaultCLIArgument with
                    currentArgs := (st.heap.getD id defaultCLIArgument).currentArgs + 1 } := by
              rw [(castArgumentAndSet_ok hc).1, getD_set_self _ _ hlen]
            have hlen1 : id < st1.heap.length := by
              rw [castArgumentAndSet_ok_length hc]
              exact hlen
            have hcount1 : (st1.heap.getD id defaultCLIArgument).currentArgs + vs.length
                = (st1.heap.getD id defaultCLIArgument).nargs := by
              rw [hst1]
              simp only [List.length_cons] at hcount
              simp only
              omega
            have hbare1 : ∀ v' ∈ vs, pyStartsWith v' "--" = false ∧
                pyStartsWith v' "-" = false :=
              fun v' hv' => hbare v' (List.mem_cons_of_mem _ hv')
            have hfu1 : (st1.heap.getD id defaultCLIArgument).satisfied = false →
                firstUnsatisfied st1.heap ns = some id := by
              intro hsat1
              rw [(castArgumentAndSet_ok hc).1]
              apply firstUnsatisfied_set hfu2
              rw [← getD_set_self
                ({ st.heap.getD id defaultCLIArgument with
                    currentArgs := (st.heap.getD id defaultCLIArgument).currentArgs + 1 })
                defaultCLIArgument hlen, ← (castArgumentAndSet_ok hc).1]
              exact hsat1
            have := ih st1 hlen1 hcount1 hbare1 hfu1 (fun he => hvs (by rw [he]; rfl))
            rw [← this]

/-- Claim C5 (amended): long-form `--name v1 ... vk` stores exactly what
positional assignment of the same raw tokens stores — in fact the whole
parse is identical — provided none of the k raw tokens begins with a
hyphen (a hyphen-initial token is classified as an option in positional
position but consumed blindly as a value after `--name`), `name` is not
also a registered flag, and the definition (the first unsatisfied
non-switch argument) has consumed nothing yet. -/
theorem long_form_equals_positional (p : CLIParser) (name : String) (id : Nat)
    (t : String) (vs : List String)
    (ht1 : pyStartsWith t "--" = true) (ht2 : pyDrop t 2 = name)
    (hflag : p.flags.contains name = false)
    (hlook : dictGet? p.arguments name = some id)
    (hlen : id < p.heap.length)
    (hnargs : (p.heap.getD id defaultCLIArgument).nargs = vs.length)
    (hzero : (p.heap.getD id defaultCLIArgument).currentArgs = 0)
    (hbare : ∀ v ∈ vs, pyStartsWith v "--" = false ∧ pyStartsWith v "-" = false)
    (hfu : firstUnsatisfied p.heap p.nonSwitches = some id) :
    CLIParser.parse p (t :: vs) = CLIParser.parse p vs := by
  have hflag2 : p.flags.contains (pyDrop t 2) = false := by rw [ht2]; exact hflag
  have hlook2 : dictGet? p.arguments (pyDrop t 2) = some id := by rw [ht2]; exact hlook
  have hloopeq : parseLoop p.flags p.arguments p.nonSwitches
        ⟨initResults p, p.heap, []⟩ none (t :: vs)
      = parseLoop p.flags p.arguments p.nonSwitches
        ⟨initResults p, p.heap, []⟩ none vs := by
    rw [parseLoop_long_arg p.flags p.arguments p.nonSwitches
      ⟨initResults p, p.heap, []⟩ t vs id ht1 hflag2 hlook2]
    by_cases hvs : vs = []
    · subst hvs
      have h0 : ((⟨initResults p, p.heap, []⟩ : ParseState).heap.getD id
          defaultCLIArgument).nargs = 0 := hnargs
      rw [if_pos h0]
    · have h0 : ((⟨initResults p, p.heap, []⟩ : ParseState).heap.getD id
          defaultCLIArgument).nargs ≠ 0 := by
        show (p.heap.getD id defaultCLIArgument).nargs ≠ 0
        rw [hnargs]
        simpa using hvs
      rw [if_neg h0]
      have hn1 : ((⟨initResults p, p.heap, []⟩ : ParseState).heap.getD id
          defaultCLIArgument).nargs - 1 = vs.length - 1 := by
        show (p.heap.getD id defaultCLIArgument).nargs - 1 = vs.length - 1
        rw [hnargs]
      rw [hn1]
      exact parseLoop_pending_eq_positional p.flags p.arguments p.nonSwitches id
        (pyDrop t 2) vs ⟨initResults p, p.heap, []⟩ hlen
        (by show (p.heap.getD id defaultCLIArgument).currentArgs + vs.length
              = (p.heap.getD id defaultCLIArgument).nargs
            rw [hzero, hnargs]
            exact Nat.zero_add _)
        hbare (fun _ => hfu) hvs
  unfold CLIParser.parse
  rw [hloopeq]

theorem long_form_equals_positional_witness :
    CLIParser.parse exQ ["--x", "v"] = CLIParser.parse exQ ["v"] :=
  long_form_equals_positional exQ "x" 0 "--x" ["v"] (by decide) (by decide) (by rfl)
    (by rfl) (by decide) (by rfl) (by rfl) (by decide) (by rfl)
